import Mathlib

/-!
Shallow embedding of `src/app.py` (a Streamlit dividend-calendar app).

Monetary amounts and share counts are embedded as rationals (`ℚ`).

Calendar times are embedded at month granularity: a `Time` counts whole
calendar months since 1970-01 (`months`), plus a rational position `sub`
inside that month, ordered lexicographically.  A pandas timestamp's `.month`
attribute (month-of-year 1–12) is then `months.emod 12 + 1`, and
`pd.DateOffset(months=12)` subtracts 12 from `months` keeping `sub`.

A fetched dividend series (`yf.Ticker(symbol).dividends`) is a pandas Series
whose `DatetimeIndex` carries one timezone for the whole index (`index.tz`),
either `None` (naive) or some fixed UTC offset.  Embedding of the timezone
handling in `calculate_portfolio_dividends` (app.py lines 116-123):
a naive index holds wall-clock values and `tz_localize('UTC')` reinterprets
those same values as UTC; a tz-aware index denotes absolute instants, and the
model carries each instant by its UTC calendar form, so `tz_convert('UTC')`
keeps the entry values and sets the index zone to UTC (offset 0).  In both
branches the resulting index is UTC-aware with the entries' UTC calendar
values, exactly what the subsequent window filter compares against.
-/

namespace DividendApp

/-- A calendar time: whole months since 1970-01, plus position in the month. -/
structure Time where
  months : Int
  sub : ℚ
deriving DecidableEq, Repr

/-- `a ≤ b` on times, lexicographic on (months, sub); embeds pandas
Timestamp comparison `divs.index >= start_date` (app.py line 124). -/
def Time.leB (a b : Time) : Bool :=
  a.months < b.months || (a.months == b.months && a.sub ≤ b.sub)

/-- Strict `a < b` on times. -/
def Time.ltB (a b : Time) : Bool :=
  a.months < b.months || (a.months == b.months && a.sub < b.sub)

/-- The `.month` attribute of a timestamp: calendar month-of-year 1–12. -/
def Time.monthOf (t : Time) : Int :=
  t.months.emod 12 + 1

/-- The `.year` attribute of a timestamp. -/
def Time.yearOf (t : Time) : Int :=
  1970 + t.months.ediv 12

/-- `end_date - pd.DateOffset(months=12)` (app.py line 100). -/
def minusTwelveMonths (t : Time) : Time :=
  { months := t.months - 12, sub := t.sub }

/-- A fetched dividend series: the index's timezone (`none` = naive,
`some o` = aware with fixed UTC offset `o`), and the (date, per-share
amount) entries; for an aware index the entries' times are carried in
their UTC calendar form (see file header). -/
structure DivSeries where
  tz : Option Int
  entries : List (Time × ℚ)
deriving DecidableEq, Repr

/-- App.py lines 117-123: if the index has no timezone, `tz_localize('UTC')`
attaches UTC to the wall-clock values; otherwise `tz_convert('UTC')`
converts the aware index to UTC.  Either way the result is UTC-aware
(`tz = some 0`) and holds the entries' UTC calendar values. -/
def tz_normalize (divs : DivSeries) : DivSeries :=
  match divs.tz with
  | none => { tz := some 0, entries := divs.entries }
  | some _ => { tz := some 0, entries := divs.entries }

/-- One row of `st.session_state.portfolio`: `{"symbol": ..., "shares": ...}`. -/
structure PortfolioEntry where
  symbol : String
  shares : ℚ
deriving DecidableEq, Repr

/-- One dict appended to `all_payouts` (app.py lines 130-135). -/
structure PayoutRecord where
  symbol : String
  month : Int
  amount : ℚ
  payDate : Time
deriving DecidableEq, Repr

/-- What one loop iteration of `calculate_portfolio_dividends` contributes:
payout records, `st.error` messages, `st.toast` notices. -/
structure ItemOut where
  payouts : List PayoutRecord
  fetchErrors : List String
  emptyNotices : List String
deriving DecidableEq, Repr

/-- The aggregate outcome of `calculate_portfolio_dividends`: the rows of the
returned DataFrame plus the warnings surfaced along the way. -/
structure AggResult where
  payouts : List PayoutRecord
  fetchErrors : List String
  emptyNotices : List String
deriving DecidableEq, Repr

/-- `st.error(f"讀取 {symbol} 失敗: {e}")` (app.py line 140). -/
def fetchErrorMsg (symbol : String) (e : String) : String :=
  "讀取 " ++ symbol ++ " 失敗: " ++ e

/-- `st.toast(f"⚠️ {symbol} 查無配息紀錄")` (app.py line 137). -/
def emptyNoticeMsg (symbol : String) : String :=
  "⚠️ " ++ symbol ++ " 查無配息紀錄"

/-- The body of one iteration of the loop in `calculate_portfolio_dividends`
(app.py lines 105-141): fetch the symbol's dividends (`fetch` embeds
`yf.Ticker(symbol).dividends`, which may raise); on error record the error
message; on an empty series record the toast notice; otherwise normalize the
index to UTC, keep events dated `>= start_date`, and emit one payout record
per retained event with `payout = amount * shares` and `month = date.month`. -/
def processItem (fetch : String → Except String DivSeries) (start_date : Time)
    (item : PortfolioEntry) : ItemOut :=
  match fetch item.symbol with
  | .error e => { payouts := [], fetchErrors := [fetchErrorMsg item.symbol e], emptyNotices := [] }
  | .ok divs =>
    if divs.entries.isEmpty then
      { payouts := [], fetchErrors := [], emptyNotices := [emptyNoticeMsg item.symbol] }
    else
      let recent_divs := (tz_normalize divs).entries.filter (fun p => Time.leB start_date p.1)
      { payouts := recent_divs.map (fun p =>
          { symbol := item.symbol, month := p.1.monthOf, amount := p.2 * item.shares, payDate := p.1 })
        fetchErrors := [], emptyNotices := [] }

/-- `calculate_portfolio_dividends(portfolio_list)` (app.py lines 95-146):
`end_date = pd.Timestamp.now(tz='UTC')` is passed in as `now`;
`start_date = end_date - pd.DateOffset(months=12)`; the loop runs over the
portfolio in order, each iteration appending its payouts, and per-symbol
exceptions are caught inside the loop. -/
def calculate_portfolio_dividends (fetch : String → Except String DivSeries)
    (now : Time) (portfolio_list : List PortfolioEntry) : AggResult :=
  let start_date := minusTwelveMonths now
  { payouts := portfolio_list.flatMap (fun it => (processItem fetch start_date it).payouts)
    fetchErrors := portfolio_list.flatMap (fun it => (processItem fetch start_date it).fetchErrors)
    emptyNotices := portfolio_list.flatMap (fun it => (processItem fetch start_date it).emptyNotices) }

/-- `months_range = list(range(1, 13))` (app.py line 163). -/
def months_range : List Int :=
  (List.range 12).map (fun i => (i : Int) + 1)

/-- One cell of `pivot_df` (app.py lines 165-175): the sum of `Amount` over
the records with this `Symbol` and `Month` (`aggfunc='sum'`, `fill_value=0`,
and 0 for the months added by the reindexing loop). -/
def pivotCell (df : List PayoutRecord) (s : String) (m : Int) : ℚ :=
  ((df.filter (fun r => r.symbol = s ∧ r.month = m)).map (fun r => r.amount)).sum

/-- The row labels of `pivot_df`: the distinct symbols occurring in the
payout records (`pivot_table(index='Symbol', ...)`).  Pandas sorts them; the
model keeps first-occurrence order, which agrees as a set. -/
def pivotRows (df : List PayoutRecord) : List String :=
  (df.map (fun r => r.symbol)).dedup

/-- `pivot_df['Total'] = pivot_df.sum(axis=1)` (app.py line 178), taken when
the columns are exactly `months_range`. -/
def rowTotal (df : List PayoutRecord) (s : String) : ℚ :=
  (months_range.map (fun m => pivotCell df s m)).sum

/-- One entry of `monthly_totals = pivot_df.sum(axis=0)` (app.py line 179)
at a month column: the column's sum over all symbol rows. -/
def monthlyTotal (df : List PayoutRecord) (m : Int) : ℚ :=
  ((pivotRows df).map (fun s => pivotCell df s m)).sum

/-- The `Total` entry of `monthly_totals` (app.py line 179): the sum of the
`Total` column over all symbol rows.  Also `annual_total` (line 189). -/
def totalsRowTotal (df : List PayoutRecord) : ℚ :=
  ((pivotRows df).map (fun s => rowTotal df s)).sum

/-- One displayed symbol row of `display_pivot_df`: the 12 monthly cells
followed by the `Total` cell (columns of app.py line 177-178). -/
def matrixRow (df : List PayoutRecord) (s : String) : List ℚ :=
  (months_range.map (fun m => pivotCell df s m)) ++ [rowTotal df s]

/-- The synthetic totals row `monthly_totals_row` labelled `每月總和`
(app.py lines 182-183). -/
def totalsRow (df : List PayoutRecord) : List ℚ :=
  (months_range.map (fun m => monthlyTotal df m)) ++ [totalsRowTotal df]

/-- `display_pivot_df = pd.concat([pivot_df, monthly_totals_row])`
(app.py line 184): the symbol rows followed by the totals row, each row
labelled and carrying its 13 cells. -/
def display_pivot_df (df : List PayoutRecord) : List (String × List ℚ) :=
  ((pivotRows df).map (fun s => (s, matrixRow df s))) ++ [("每月總和", totalsRow df)]

/-- Python `"." not in s` (app.py line 42), character-level: some character
of `s` is a dot. -/
def containsDot (s : String) : Bool :=
  s.data.contains '.'

/-- Python `str.isalnum()` on the ASCII strings the app deals in:
non-empty and every character alphanumeric. -/
def str_isalnum (s : String) : Bool :=
  !s.data.isEmpty && s.data.all (fun c => c.isAlphanum)

/-- App.py lines 39-43: from the cleaned ticker (`input_ticker.strip().upper()`)
build the search symbol — append `.TW` when the string has no `"."` and
`isalnum()` holds, else keep it unchanged. -/
def search_symbol (ticker_clean : String) : String :=
  if !(containsDot ticker_clean) && str_isalnum ticker_clean then
    ticker_clean ++ ".TW"
  else
    ticker_clean

/-- `st.warning(f"{search_symbol} 已經在清單中囉！")` (app.py line 47). -/
def duplicateWarnMsg (symbol : String) : String :=
  symbol ++ " 已經在清單中囉！"

/-- App.py lines 46-53: the add-to-portfolio action.  If any entry already
has this symbol, warn and leave the store unchanged; otherwise append the
new entry.  Returns the new store and the warning, if any. -/
def portfolio_add (portfolio : List PortfolioEntry) (symbol : String)
    (actual_shares : ℚ) : List PortfolioEntry × Option String :=
  if portfolio.any (fun d => d.symbol == symbol) then
    (portfolio, some (duplicateWarnMsg symbol))
  else
    (portfolio ++ [{ symbol := symbol, shares := actual_shares }], none)



/-! ### Concrete example runs, used by the witnesses and counterexamples -/

/-- A concrete naive-index series with two events, one in January 2025
(months = 660) and one in January 2026 (months = 672). -/
def exSeries : DivSeries :=
  { tz := none, entries := [(⟨660, 2⟩, 2), (⟨672, 0⟩, 3)] }

/-- A concrete fetch: every symbol yields `exSeries`. -/
def exFetch : String → Except String DivSeries :=
  fun _ => .ok exSeries

/-- A concrete analysis instant: January 2026. -/
def exNow : Time := ⟨672, 1⟩

/-- A concrete portfolio: one symbol, 1000 shares. -/
def exPf : List PortfolioEntry := [⟨"TEST.TW", 1000⟩]

/-- The payout records of the concrete run. -/
def exDf : List PayoutRecord := (calculate_portfolio_dividends exFetch exNow exPf).payouts

/-- A concrete fetch where only `A.TW` has dividend events. -/
def exFetch2 : String → Except String DivSeries :=
  fun s => if s = "A.TW" then .ok { tz := none, entries := [(⟨672, 0⟩, 1)] }
           else .ok { tz := none, entries := [] }

/-- A concrete two-symbol portfolio. -/
def exPf2 : List PortfolioEntry := [⟨"A.TW", 1⟩, ⟨"B.TW", 1⟩]

/-- The payout records of the two-symbol run. -/
def exDf2 : List PayoutRecord := (calculate_portfolio_dividends exFetch2 exNow exPf2).payouts

/-- A concrete fetch where `A.TW` yields `exSeries` and every other symbol
raises. -/
def exFetch3 : String → Except String DivSeries :=
  fun s => if s = "A.TW" then .ok exSeries else .error "boom"

/-! ### Helper lemmas -/

theorem tz_normalize_entries (divs : DivSeries) :
    (tz_normalize divs).entries = divs.entries := by
  cases h : divs.tz <;> simp [tz_normalize, h]

theorem sum_map_add_split {α : Type} (l : List α) (f g : α → ℚ) :
    (l.map (fun a => f a + g a)).sum = (l.map f).sum + (l.map g).sum := by
  induction l with
  | nil => simp
  | cons a t ih => simp only [List.map_cons, List.sum_cons, ih]; ring

theorem sum_map_ite_of_not_mem {β : Type} [DecidableEq β] (ks : List β) (k0 : β) (c : ℚ)
    (hk : k0 ∉ ks) : (ks.map (fun k => if k0 = k then c else 0)).sum = 0 := by
  induction ks with
  | nil => simp
  | cons k t ih =>
    simp only [List.map_cons, List.sum_cons]
    rw [if_neg (fun h => hk (by rw [h]; exact List.mem_cons_self k t))]
    rw [ih (fun h => hk (List.mem_cons_of_mem _ h))]
    simp

theorem sum_map_ite_of_mem {β : Type} [DecidableEq β] (ks : List β) (k0 : β) (c : ℚ)
    (hnd : ks.Nodup) (hk : k0 ∈ ks) :
    (ks.map (fun k => if k0 = k then c else 0)).sum = c := by
  induction ks with
  | nil => cases hk
  | cons k t ih =>
    rcases List.mem_cons.mp hk with h | h
    · subst h
      simp only [List.map_cons, List.sum_cons, if_pos rfl]
      rw [sum_map_ite_of_not_mem t k0 c (List.nodup_cons.mp hnd).1]
      simp
    · have hne : k0 ≠ k := by
        intro he
        exact (List.nodup_cons.mp hnd).1 (he ▸ h)
      simp only [List.map_cons, List.sum_cons, if_neg hne]
      rw [ih (List.nodup_cons.mp hnd).2 h]
      simp

theorem sum_filter_key_partition {α β : Type} [DecidableEq β]
    (l : List α) (f : α → ℚ) (key : α → β) (ks : List β)
    (hnd : ks.Nodup) (hmem : ∀ a ∈ l, key a ∈ ks) :
    (ks.map (fun k => ((l.filter (fun a => key a = k)).map f).sum)).sum
      = (l.map f).sum := by
  induction l with
  | nil => simp
  | cons a t ih =>
    have hka : key a ∈ ks := hmem a (List.mem_cons_self a t)
    have ht : ∀ x ∈ t, key x ∈ ks := fun x hx => hmem x (List.mem_cons_of_mem a hx)
    have hstep : (ks.map (fun k => (((a :: t).filter (fun x => key x = k)).map f).sum))
        = ks.map (fun k => (if key a = k then f a else 0)
            + ((t.filter (fun x => key x = k)).map f).sum) := by
      apply List.map_congr_left
      intro k _
      by_cases h : key a = k
      · simp [List.filter_cons, h]
      · simp [List.filter_cons, h]
    rw [hstep, sum_map_add_split, sum_map_ite_of_mem ks (key a) (f a) hnd hka, ih ht]
    simp

theorem months_range_nodup : months_range.Nodup := by decide

theorem monthOf_mem_months_range (t : Time) : t.monthOf ∈ months_range := by
  have h1 : 0 ≤ t.months.emod 12 := Int.emod_nonneg t.months (by decide)
  have h2 : t.months.emod 12 < 12 := Int.emod_lt_of_pos t.months (by decide)
  have he : months_range = [1, 2, 3, 4, 5, 6, 7, 8, 9, 10, 11, 12] := by decide
  rw [he]
  unfold Time.monthOf
  simp only [List.mem_cons, List.not_mem_nil, or_false]
  omega

theorem mem_processItem_payouts (fetch : String → Except String DivSeries)
    (start_date : Time) (it : PortfolioEntry) (r : PayoutRecord) :
    r ∈ (processItem fetch start_date it).payouts ↔
      ∃ divs, fetch it.symbol = .ok divs ∧ divs.entries.isEmpty = false ∧
        ∃ p ∈ divs.entries, Time.leB start_date p.1 = true ∧
          r = { symbol := it.symbol, month := p.1.monthOf,
                amount := p.2 * it.shares, payDate := p.1 } := by
  unfold processItem
  cases hf : fetch it.symbol with
  | error e => simp
  | ok divs =>
    by_cases he : divs.entries.isEmpty
    · have he2 : divs.entries = [] := List.isEmpty_iff.mp he
      simp [he, he2]
    · simp only [he, if_neg, Bool.false_eq_true, not_false_iff, if_false,
        List.mem_map, List.mem_filter, tz_normalize_entries]
      constructor
      · rintro ⟨p, ⟨hp, hle⟩, hr⟩
        exact ⟨divs, rfl, by simp [he], p, hp, hle, hr.symm⟩
      · rintro ⟨divs2, hd2, _, p, hp, hle, hr⟩
        cases hd2
        exact ⟨p, ⟨hp, hle⟩, hr.symm⟩

theorem mem_calculate_payouts (fetch : String → Except String DivSeries)
    (now : Time) (pf : List PortfolioEntry) (r : PayoutRecord) :
    r ∈ (calculate_portfolio_dividends fetch now pf).payouts ↔
      ∃ it ∈ pf, ∃ divs, fetch it.symbol = .ok divs ∧ divs.entries.isEmpty = false ∧
        ∃ p ∈ divs.entries, Time.leB (minusTwelveMonths now) p.1 = true ∧
          r = { symbol := it.symbol, month := p.1.monthOf,
                amount := p.2 * it.shares, payDate := p.1 } := by
  simp only [calculate_portfolio_dividends, List.mem_flatMap, mem_processItem_payouts]

theorem pivotCell_filter_split (df : List PayoutRecord) (s : String) (m : Int) :
    pivotCell df s m
      = (((df.filter (fun r => r.symbol = s)).filter (fun r => r.month = m)).map
          (fun r => r.amount)).sum := by
  unfold pivotCell
  rw [List.filter_filter]
  congr 1
  apply congrArg
  apply List.filter_congr
  intro r _
  simp [Bool.and_comm]

theorem rowTotal_eq_symbol_sum (df : List PayoutRecord) (s : String)
    (hmonths : ∀ r ∈ df, r.month ∈ months_range) :
    rowTotal df s = ((df.filter (fun r => r.symbol = s)).map (fun r => r.amount)).sum := by
  unfold rowTotal
  have h1 : months_range.map (fun m => pivotCell df s m)
      = months_range.map (fun m =>
          (((df.filter (fun r => r.symbol = s)).filter (fun r => r.month = m)).map
            (fun r => r.amount)).sum) := by
    apply List.map_congr_left
    intro m _
    exact pivotCell_filter_split df s m
  rw [h1]
  exact sum_filter_key_partition (df.filter (fun r => r.symbol = s)) (fun r => r.amount)
    (fun r => r.month) months_range months_range_nodup
    (fun r hr => hmonths r (List.mem_of_mem_filter hr))

theorem totalsRowTotal_eq_grand_sum (df : List PayoutRecord)
    (hmonths : ∀ r ∈ df, r.month ∈ months_range) :
    totalsRowTotal df = (df.map (fun r => r.amount)).sum := by
  unfold totalsRowTotal
  have h1 : (pivotRows df).map (fun s => rowTotal df s)
      = (pivotRows df).map (fun s =>
          ((df.filter (fun r => r.symbol = s)).map (fun r => r.amount)).sum) := by
    apply List.map_congr_left
    intro s _
    exact rowTotal_eq_symbol_sum df s hmonths
  rw [h1]
  exact sum_filter_key_partition df (fun r => r.amount) (fun r => r.symbol)
    (pivotRows df) (List.nodup_dedup _)
    (fun r hr => List.mem_dedup.mpr (List.mem_map_of_mem (fun x => x.symbol) hr))

theorem calculate_months_in_range (fetch : String → Except String DivSeries)
    (now : Time) (pf : List PortfolioEntry) :
    ∀ r ∈ (calculate_portfolio_dividends fetch now pf).payouts, r.month ∈ months_range := by
  intro r hr
  obtain ⟨it, _, divs, _, _, p, _, _, hr⟩ := (mem_calculate_payouts fetch now pf r).mp hr
  rw [hr]
  exact monthOf_mem_months_range p.1

theorem calculate_drop_error_symbol (fetch : String → Except String DivSeries)
    (now : Time) (pf : List PortfolioEntry) (s : String) (e : String)
    (herr : fetch s = .error e) :
    (calculate_portfolio_dividends fetch now pf).payouts
      = (calculate_portfolio_dividends fetch now
          (pf.filter (fun it => it.symbol ≠ s))).payouts := by
  induction pf with
  | nil => rfl
  | cons it t ih =>
    have hLHS : (calculate_portfolio_dividends fetch now (it :: t)).payouts
        = (processItem fetch (minusTwelveMonths now) it).payouts
          ++ (calculate_portfolio_dividends fetch now t).payouts := by
      simp [calculate_portfolio_dividends]
    by_cases h : it.symbol = s
    · have hpi : (processItem fetch (minusTwelveMonths now) it).payouts = [] := by
        simp [processItem, h, herr]
      have hfil : (it :: t).filter (fun x => x.symbol ≠ s)
          = t.filter (fun x => x.symbol ≠ s) := by
        simp [List.filter_cons, h]
      rw [hLHS, hpi, List.nil_append, hfil]
      exact ih
    · have hfil : (it :: t).filter (fun x => x.symbol ≠ s)
          = it :: t.filter (fun x => x.symbol ≠ s) := by
        simp [List.filter_cons, h]
      have hRHS : (calculate_portfolio_dividends fetch now
            (it :: t.filter (fun x => x.symbol ≠ s))).payouts
          = (processItem fetch (minusTwelveMonths now) it).payouts
            ++ (calculate_portfolio_dividends fetch now
                (t.filter (fun x => x.symbol ≠ s))).payouts := by
        simp [calculate_portfolio_dividends]
      rw [hLHS, hfil, hRHS, ih]

theorem calculate_amounts_nonneg (fetch : String → Except String DivSeries)
    (now : Time) (pf : List PortfolioEntry)
    (hshares : ∀ it ∈ pf, 0 < it.shares)
    (hamounts : ∀ sym divs, fetch sym = .ok divs → ∀ p ∈ divs.entries, 0 ≤ p.2) :
    ∀ r ∈ (calculate_portfolio_dividends fetch now pf).payouts, 0 ≤ r.amount := by
  intro r hr
  obtain ⟨it, hit, divs, hok, _, p, hp, _, hre⟩ :=
    (mem_calculate_payouts fetch now pf r).mp hr
  rw [hre]
  exact mul_nonneg (hamounts it.symbol divs hok p hp) (le_of_lt (hshares it hit))

theorem pivotCell_nonneg (df : List PayoutRecord)
    (h : ∀ r ∈ df, 0 ≤ r.amount) (s : String) (m : Int) :
    0 ≤ pivotCell df s m := by
  apply List.sum_nonneg
  intro x hx
  obtain ⟨r, hr, he⟩ := List.mem_map.mp hx
  rw [← he]
  exact h r (List.mem_of_mem_filter hr)

theorem rowTotal_nonneg (df : List PayoutRecord)
    (h : ∀ r ∈ df, 0 ≤ r.amount) (s : String) : 0 ≤ rowTotal df s := by
  apply List.sum_nonneg
  intro x hx
  obtain ⟨m, _, he⟩ := List.mem_map.mp hx
  rw [← he]
  exact pivotCell_nonneg df h s m

theorem monthlyTotal_nonneg (df : List PayoutRecord)
    (h : ∀ r ∈ df, 0 ≤ r.amount) (m : Int) : 0 ≤ monthlyTotal df m := by
  apply List.sum_nonneg
  intro x hx
  obtain ⟨s, _, he⟩ := List.mem_map.mp hx
  rw [← he]
  exact pivotCell_nonneg df h s m

theorem totalsRowTotal_nonneg (df : List PayoutRecord)
    (h : ∀ r ∈ df, 0 ≤ r.amount) : 0 ≤ totalsRowTotal df := by
  apply List.sum_nonneg
  intro x hx
  obtain ⟨s, _, he⟩ := List.mem_map.mp hx
  rw [← he]
  exact rowTotal_nonneg df h s

/-! ### Claim theorems -/

/-- C1: for every non-empty payout set, the constructed matrix reconciles —
each symbol row's Total cell equals the sum of that row's 12 monthly cells,
and the synthetic totals row's Total cell equals the grand sum of all
individual payout amounts produced in the window. -/
theorem payout_matrix_reconciles (fetch : String → Except String DivSeries)
    (now : Time) (pf : List PortfolioEntry) (df : List PayoutRecord)
    (hdf : df = (calculate_portfolio_dividends fetch now pf).payouts)
    (hne : df ≠ []) :
    (∀ s ∈ pivotRows df,
      rowTotal df s = (months_range.map (fun m => pivotCell df s m)).sum) ∧
    totalsRowTotal df = (df.map (fun r => r.amount)).sum := by
  subst hdf
  exact ⟨fun s _ => rfl,
    totalsRowTotal_eq_grand_sum _ (calculate_months_in_range fetch now pf)⟩

/-- Witness for C1 at the concrete run. -/
theorem payout_matrix_reconciles_witness :
    (∀ s ∈ pivotRows exDf,
      rowTotal exDf s = (months_range.map (fun m => pivotCell exDf s m)).sum) ∧
    totalsRowTotal exDf = (exDf.map (fun r => r.amount)).sum :=
  payout_matrix_reconciles exFetch exNow exPf exDf rfl (by decide)

/-- C2: before the window filter, the date index of the series is made
UTC-aware — a naive index gets UTC attached, a tz-aware index is converted
to UTC — and the filter retains exactly the events dated ≥ start = now − 12
months. -/
theorem tz_normalize_and_window_filter (fetch : String → Except String DivSeries)
    (now : Time) (it : PortfolioEntry) (divs : DivSeries)
    (hf : fetch it.symbol = .ok divs) (hne : divs.entries.isEmpty = false) :
    (tz_normalize divs).tz = some 0 ∧
    (divs.tz = none → tz_normalize divs = { tz := some 0, entries := divs.entries }) ∧
    (∀ o, divs.tz = some o → tz_normalize divs = { tz := some 0, entries := divs.entries }) ∧
    (∀ p, p ∈ (tz_normalize divs).entries.filter
          (fun q => Time.leB (minusTwelveMonths now) q.1)
        ↔ p ∈ (tz_normalize divs).entries ∧
          Time.leB (minusTwelveMonths now) p.1 = true) ∧
    (processItem fetch (minusTwelveMonths now) it).payouts
      = ((tz_normalize divs).entries.filter
          (fun p => Time.leB (minusTwelveMonths now) p.1)).map
          (fun p => { symbol := it.symbol, month := p.1.monthOf,
                      amount := p.2 * it.shares, payDate := p.1 }) := by
  refine ⟨?_, ?_, ?_, ?_, ?_⟩
  · cases h : divs.tz <;> simp [tz_normalize, h]
  · intro h; simp [tz_normalize, h]
  · intro o h; simp [tz_normalize, h]
  · intro p; simp [List.mem_filter]
  · simp [processItem, hf, hne]

/-- Witness for C2 at the concrete run. -/
theorem tz_normalize_and_window_filter_witness :
    (tz_normalize exSeries).tz = some 0 ∧
    (exSeries.tz = none →
      tz_normalize exSeries = { tz := some 0, entries := exSeries.entries }) ∧
    (∀ o, exSeries.tz = some o →
      tz_normalize exSeries = { tz := some 0, entries := exSeries.entries }) ∧
    (∀ p, p ∈ (tz_normalize exSeries).entries.filter
          (fun q => Time.leB (minusTwelveMonths exNow) q.1)
        ↔ p ∈ (tz_normalize exSeries).entries ∧
          Time.leB (minusTwelveMonths exNow) p.1 = true) ∧
    (processItem exFetch (minusTwelveMonths exNow) ⟨"TEST.TW", 1000⟩).payouts
      = ((tz_normalize exSeries).entries.filter
          (fun p => Time.leB (minusTwelveMonths exNow) p.1)).map
          (fun p => { symbol := "TEST.TW", month := p.1.monthOf,
                      amount := p.2 * 1000, payDate := p.1 }) :=
  tz_normalize_and_window_filter exFetch exNow ⟨"TEST.TW", 1000⟩ exSeries rfl rfl

/-- C3 counterexample: the window filter of the code checks only
`divs.index >= start_date` (app.py line 124) — an event dated strictly
after `end_date = now` is retained and contributes a payout record, so the
claim that no event after `end` contributes is false. -/
theorem event_after_end_included :
    ((calculate_portfolio_dividends
        (fun _ => .ok { tz := none, entries := [(⟨673, 0⟩, 1)] })
        ⟨672, 1⟩ [⟨"TEST.TW", 1000⟩]).payouts.filter
      (fun r => Time.ltB ⟨672, 1⟩ r.payDate)).length = 1 := by decide

/-- C3 amended: every included event is dated ≥ start = now − 12 months;
the code enforces only this lower bound, no upper bound at `end = now`. -/
theorem window_lower_bound_holds (fetch : String → Except String DivSeries)
    (now : Time) (pf : List PortfolioEntry) (r : PayoutRecord)
    (hr : r ∈ (calculate_portfolio_dividends fetch now pf).payouts) :
    Time.leB (minusTwelveMonths now) r.payDate = true := by
  obtain ⟨it, _, divs, _, _, p, _, hle, hre⟩ :=
    (mem_calculate_payouts fetch now pf r).mp hr
  rw [hre]
  exact hle

/-- Witness for the amended C3 at the concrete run. -/
theorem window_lower_bound_holds_witness :
    Time.leB (minusTwelveMonths exNow) (⟨660, 2⟩ : Time) = true :=
  window_lower_bound_holds exFetch exNow exPf
    ⟨"TEST.TW", Time.monthOf ⟨660, 2⟩, 2 * 1000, ⟨660, 2⟩⟩ (List.Mem.head _)

/-- C4: payout = per-share amount × shares held, and payouts are bucketed by
calendar month-of-year ignoring year — for a one-entry portfolio whose
series has two in-window events in the same calendar month of different
years, both scaled payouts land in the same (symbol, month) cell and sum. -/
theorem payout_scaling_and_month_bucketing (s : String) (sh : ℚ)
    (tz : Option Int) (t1 t2 : Time) (a1 a2 : ℚ) (now : Time)
    (h1 : Time.leB (minusTwelveMonths now) t1 = true)
    (h2 : Time.leB (minusTwelveMonths now) t2 = true)
    (hyear : t1.yearOf ≠ t2.yearOf)
    (hm : t1.monthOf = t2.monthOf) :
    (calculate_portfolio_dividends
        (fun _ => .ok { tz := tz, entries := [(t1, a1), (t2, a2)] })
        now [⟨s, sh⟩]).payouts
      = [{ symbol := s, month := t1.monthOf, amount := a1 * sh, payDate := t1 },
         { symbol := s, month := t2.monthOf, amount := a2 * sh, payDate := t2 }] ∧
    pivotCell (calculate_portfolio_dividends
        (fun _ => .ok { tz := tz, entries := [(t1, a1), (t2, a2)] })
        now [⟨s, sh⟩]).payouts s t1.monthOf
      = a1 * sh + a2 * sh := by
  have hpay : (calculate_portfolio_dividends
      (fun _ => .ok { tz := tz, entries := [(t1, a1), (t2, a2)] })
      now [⟨s, sh⟩]).payouts
      = [{ symbol := s, month := t1.monthOf, amount := a1 * sh, payDate := t1 },
         { symbol := s, month := t2.monthOf, amount := a2 * sh, payDate := t2 }] := by
    simp [calculate_portfolio_dividends, processItem, tz_normalize_entries, h1, h2]
  refine ⟨hpay, ?_⟩
  rw [hpay]
  simp [pivotCell, ← hm]

/-- Witness for C4: the two January events of the concrete series (January
2025 and January 2026) both land in the month-1 cell and sum to 2000 + 3000. -/
theorem payout_scaling_and_month_bucketing_witness :
    (calculate_portfolio_dividends
        (fun _ => .ok { tz := none, entries := [((⟨660, 2⟩ : Time), (2 : ℚ)), (⟨672, 0⟩, 3)] })
        exNow [⟨"TEST.TW", 1000⟩]).payouts
      = [{ symbol := "TEST.TW", month := Time.monthOf ⟨660, 2⟩, amount := 2 * 1000, payDate := ⟨660, 2⟩ },
         { symbol := "TEST.TW", month := Time.monthOf ⟨672, 0⟩, amount := 3 * 1000, payDate := ⟨672, 0⟩ }] ∧
    pivotCell (calculate_portfolio_dividends
        (fun _ => .ok { tz := none, entries := [((⟨660, 2⟩ : Time), (2 : ℚ)), (⟨672, 0⟩, 3)] })
        exNow [⟨"TEST.TW", 1000⟩]).payouts "TEST.TW" (Time.monthOf ⟨660, 2⟩)
      = 2 * 1000 + 3 * 1000 :=
  payout_scaling_and_month_bucketing "TEST.TW" 1000 none ⟨660, 2⟩ ⟨672, 0⟩ 2 3 exNow
    (by decide) (by decide) (by decide) (by decide)

/-- C5: the normalizer appends `.TW` exactly when the cleaned string
contains no `"."` and is alphanumeric; every other string passes through
unchanged. -/
theorem search_symbol_suffix_rule (s : String) :
    (search_symbol s = s ++ ".TW" ↔ (containsDot s = false ∧ str_isalnum s = true)) ∧
    ((containsDot s = true ∨ str_isalnum s = false) → search_symbol s = s) := by
  have h3 : (".TW" : String).length = 3 := rfl
  have hne : ¬ (s ++ ".TW" = s) := by
    intro he
    have hlen := congrArg String.length he
    rw [String.length_append] at hlen
    omega
  have hne2 : ¬ (s = s ++ ".TW") := fun he => hne he.symm
  by_cases h1 : containsDot s = true <;> by_cases h2 : str_isalnum s = true <;>
    simp [search_symbol, h1, h2, hne, hne2]

/-- Witness for C5: the suffix rule applied at two concrete inputs. -/
theorem search_symbol_suffix_rule_witness :
    search_symbol "0050" = "0050" ++ ".TW" ∧ search_symbol "00679B.TWO" = "00679B.TWO" :=
  ⟨(search_symbol_suffix_rule "0050").1.mpr (by decide),
   (search_symbol_suffix_rule "00679B.TWO").2 (by decide)⟩

/-- C6 counterexample: the claim says `"AAPL"` is left unchanged, but the
code appends `.TW` to it — `"AAPL"` contains no `"."` and is alphanumeric,
so `search_symbol` suffixes it. -/
theorem search_symbol_aapl_changed :
    search_symbol "AAPL" = "AAPL.TW" ∧ search_symbol "AAPL" ≠ "AAPL" := by decide

/-- C6 amended: `"0050"` gets the suffix, `"AAPL"` (alphanumeric, no dot)
also gets the suffix, and `"00679B.TWO"` passes through unchanged. -/
theorem search_symbol_concrete_examples :
    search_symbol "0050" = "0050.TW" ∧ search_symbol "AAPL" = "AAPL.TW" ∧
    search_symbol "00679B.TWO" = "00679B.TWO" := by decide

/-- C7 counterexample: rows of the pivot are the distinct symbols of the
payout records, not of the portfolio — a portfolio symbol whose series is
empty gets no row, so "one row per distinct symbol present in the
portfolio" fails. -/
theorem pivot_row_missing_portfolio_symbol :
    "B.TW" ∈ exPf2.map (fun it => it.symbol) ∧ pivotRows exDf2 = ["A.TW"] := by decide

/-- C7 amended: one row per distinct symbol having at least one payout
record in the window; each row lists the 12 month columns 1–12 followed by
the Total column (13 cells), and a (symbol, month) cell with no records is
zero-filled. -/
theorem pivot_rows_and_columns (fetch : String → Except String DivSeries)
    (now : Time) (pf : List PortfolioEntry) (df : List PayoutRecord)
    (hdf : df = (calculate_portfolio_dividends fetch now pf).payouts)
    (s : String) (m : Int)
    (hempty : df.filter (fun r => r.symbol = s ∧ r.month = m) = []) :
    (s ∈ pivotRows df ↔ ∃ r ∈ df, r.symbol = s) ∧
    (matrixRow df s).length = 13 ∧
    matrixRow df s
      = (months_range.map (fun mo => pivotCell df s mo)) ++ [rowTotal df s] ∧
    pivotCell df s m = 0 := by
  refine ⟨?_, ?_, rfl, ?_⟩
  · simp [pivotRows, List.mem_dedup, List.mem_map]
  · have h12 : months_range.length = 12 := rfl
    simp [matrixRow, List.length_append, List.length_map, h12]
  · unfold pivotCell
    rw [hempty]
    rfl

/-- Witness for the amended C7 at the two-symbol run (month 2 has no records
for `A.TW`). -/
theorem pivot_rows_and_columns_witness :
    ("A.TW" ∈ pivotRows exDf2 ↔ ∃ r ∈ exDf2, r.symbol = "A.TW") ∧
    (matrixRow exDf2 "A.TW").length = 13 ∧
    matrixRow exDf2 "A.TW"
      = (months_range.map (fun mo => pivotCell exDf2 "A.TW" mo))
        ++ [rowTotal exDf2 "A.TW"] ∧
    pivotCell exDf2 "A.TW" 2 = 0 :=
  pivot_rows_and_columns exFetch2 exNow exPf2 exDf2 rfl "A.TW" 2 (by decide)

/-- C8: adding a symbol already present (exact match on the normalized
symbol) is rejected with the duplicate warning and leaves the store
unchanged. -/
theorem duplicate_add_rejected (portfolio : List PortfolioEntry)
    (symbol : String) (sh : ℚ)
    (hdup : ∃ d ∈ portfolio, d.symbol = symbol) :
    (portfolio_add portfolio symbol sh).1 = portfolio ∧
    (portfolio_add portfolio symbol sh).2 = some (duplicateWarnMsg symbol) := by
  obtain ⟨d, hd, he⟩ := hdup
  have hany : portfolio.any (fun d => d.symbol == symbol) = true :=
    List.any_eq_true.mpr ⟨d, hd, by simp [he]⟩
  simp [portfolio_add, hany]

/-- Witness for C8: re-adding `0050.TW` leaves the one-entry store as it
was. -/
theorem duplicate_add_rejected_witness :
    (portfolio_add [⟨"0050.TW", 1000⟩] "0050.TW" 2000).1 = [⟨"0050.TW", 1000⟩] ∧
    (portfolio_add [⟨"0050.TW", 1000⟩] "0050.TW" 2000).2
      = some (duplicateWarnMsg "0050.TW") :=
  duplicate_add_rejected [⟨"0050.TW", 1000⟩] "0050.TW" 2000
    ⟨⟨"0050.TW", 1000⟩, by decide, rfl⟩

/-- C9: a per-symbol fetch error is caught inside the loop — the run records
the error message naming that symbol, that symbol contributes zero payout
records, and the payouts equal those of the portfolio without it (every
remaining symbol still processed); the run is a total function, so the
per-symbol failure never propagates out. -/
theorem per_symbol_failure_isolated (fetch : String → Except String DivSeries)
    (now : Time) (pf : List PortfolioEntry) (s : String) (e : String)
    (hs : s ∈ pf.map (fun it => it.symbol))
    (herr : fetch s = .error e) :
    fetchErrorMsg s e ∈ (calculate_portfolio_dividends fetch now pf).fetchErrors ∧
    (∀ r ∈ (calculate_portfolio_dividends fetch now pf).payouts, r.symbol ≠ s) ∧
    (calculate_portfolio_dividends fetch now pf).payouts
      = (calculate_portfolio_dividends fetch now
          (pf.filter (fun it => it.symbol ≠ s))).payouts := by
  refine ⟨?_, ?_, calculate_drop_error_symbol fetch now pf s e herr⟩
  · obtain ⟨it, hit, hsym⟩ := List.mem_map.mp hs
    apply List.mem_flatMap.mpr
    refine ⟨it, hit, ?_⟩
    simp [processItem, hsym, herr]
  · intro r hr heq
    obtain ⟨it, _, divs, hok, _, p, _, _, hre⟩ :=
      (mem_calculate_payouts fetch now pf r).mp hr
    rw [hre] at heq
    have hsym2 : it.symbol = s := heq
    rw [hsym2, herr] at hok
    cases hok

/-- Witness for C9: `B.TW` raises, its error is recorded, and `A.TW` is
still fully processed. -/
theorem per_symbol_failure_isolated_witness :
    fetchErrorMsg "B.TW" "boom"
      ∈ (calculate_portfolio_dividends exFetch3 exNow exPf2).fetchErrors ∧
    (∀ r ∈ (calculate_portfolio_dividends exFetch3 exNow exPf2).payouts,
      r.symbol ≠ "B.TW") ∧
    (calculate_portfolio_dividends exFetch3 exNow exPf2).payouts
      = (calculate_portfolio_dividends exFetch3 exNow
          (exPf2.filter (fun it => it.symbol ≠ "B.TW"))).payouts :=
  per_symbol_failure_isolated exFetch3 exNow exPf2 "B.TW" "boom" (by decide) rfl

/-- C10: with non-negative per-share amounts and positive share counts,
every cell of the displayed matrix — monthly cells, the Total column, and
the totals row — is non-negative. -/
theorem display_matrix_nonneg (fetch : String → Except String DivSeries)
    (now : Time) (pf : List PortfolioEntry)
    (hshares : ∀ it ∈ pf, 0 < it.shares)
    (hamounts : ∀ sym divs, fetch sym = .ok divs → ∀ p ∈ divs.entries, 0 ≤ p.2) :
    ∀ row ∈ display_pivot_df (calculate_portfolio_dividends fetch now pf).payouts,
      ∀ x ∈ row.2, 0 ≤ x := by
  intro row hrow x hx
  have hamt : ∀ r ∈ (calculate_portfolio_dividends fetch now pf).payouts, 0 ≤ r.amount :=
    calculate_amounts_nonneg fetch now pf hshares hamounts
  rcases List.mem_append.mp hrow with h | h
  · obtain ⟨s, _, he⟩ := List.mem_map.mp h
    rw [← he] at hx
    rcases List.mem_append.mp hx with h2 | h2
    · obtain ⟨m, _, he2⟩ := List.mem_map.mp h2
      rw [← he2]
      exact pivotCell_nonneg _ hamt s m
    · rw [List.mem_singleton.mp h2]
      exact rowTotal_nonneg _ hamt s
  · rw [List.mem_singleton.mp h] at hx
    rcases List.mem_append.mp hx with h2 | h2
    · obtain ⟨m, _, he2⟩ := List.mem_map.mp h2
      rw [← he2]
      exact monthlyTotal_nonneg _ hamt m
    · rw [List.mem_singleton.mp h2]
      exact totalsRowTotal_nonneg _ hamt

/-- Witness for C10 at the concrete run: the grand-total cell of the totals
row is non-negative. -/
theorem display_matrix_nonneg_witness :
    (0 : ℚ) ≤ totalsRowTotal exDf :=
  display_matrix_nonneg exFetch exNow exPf (by decide)
    (by
      intro sym divs h p hp
      have h2 : (Except.ok exSeries : Except String DivSeries) = Except.ok divs := h
      cases h2
      revert p hp
      decide)
    ("每月總和", totalsRow exDf)
    (List.mem_append_right _ (List.mem_singleton.mpr rfl))
    (totalsRowTotal exDf)
    (List.mem_append_right _ (List.mem_singleton.mpr rfl))

end DividendApp
